import Mathlib

/-!
Verification development for the bitpeers peer-database statistics tool
(`src/main.go`).  The Go code is shallowly embedded: each Go function becomes
a Lean function of the same name; Go `uint32` arithmetic is modelled on `Nat`
with explicit reduction modulo `2^32` where overflow matters; Go runtime
panics (slice index out of range) are modelled by `Option` with `none` for a
panic; Go `float64` division is modelled on `ℚ` with `none` standing for the
IEEE NaN produced by `0.0 / 0.0`.

The decoder types (`CAddrInfo`, `PeersDB`) come from the bitpeers library,
which is not part of this repository's sources; they are modelled from the
spec (§3, §4.1): a record carries the `String()` rendering of its peer
address ("host:port") and a 32-bit last-seen timestamp, and the decoded
database holds exactly the two record tables, whose lengths match the
header-declared counts (spec round-trip property).
-/

namespace BitPeers

/-- Modelled from the spec: the `String()` form of a decoded peer address
("host:port") together with its last-seen timestamp (`uint32`, kept as `Nat`;
decoded values are below `2^32`).  Mirrors `CAddress` of the bitpeers
library, which is not under `src/`. -/
structure CAddress where
  peerAddressStr : String
  time : Nat
deriving DecidableEq, Repr

/-- Modelled from the spec: one decoded peer record.  Mirrors `CAddrInfo` of
the bitpeers library (only the `Address` field is used by `main.go`). -/
structure CAddrInfo where
  address : CAddress
deriving DecidableEq, Repr

/-- Modelled from the spec: the decoded snapshot, holding the "new" and
"tried" tables.  The count fields `NNew`/`NTried` of the Go struct equal the
table lengths (spec §8 round-trip property), so the loops of `main.go` that
run `i` from `0` to the count and index the table are folds over these
lists. -/
structure PeersDB where
  newAddrInfo : List CAddrInfo
  triedAddrInfo : List CAddrInfo
deriving DecidableEq, Repr

/-- Go zero value of `PeersDB`: both slices are nil (length 0).  This is
what `NewPeersDB` leaves behind when decoding fails. -/
def zeroPeersDB : PeersDB := ⟨[], []⟩

/-- AgeBuckets of `main.go`: the five age-range counters. -/
structure AgeBuckets where
  lessThanOne : Nat
  oneToFive : Nat
  fiveToTen : Nat
  tenToThirty : Nat
  greaterThanThirty : Nat
deriving DecidableEq, Repr

/-- Result of `main.go`.  `percentage` is Go's `float64`; here `some q` is
the exact rational value and `none` is the IEEE NaN produced by `0.0/0.0`
(see `divOrNaN`). -/
structure Result where
  numberOfReachableIPs : Nat
  totalIPs : Nat
  percentage : Option ℚ
  oldestIPAge : Nat
  age : AgeBuckets
deriving DecidableEq, Repr

/-- CreateResult of `main.go`: all fields start at their zero values. -/
def CreateResult : Result :=
  { numberOfReachableIPs := 0
    totalIPs := 0
    percentage := some 0
    oldestIPAge := 0
    age := ⟨0, 0, 0, 0, 0⟩ }

/-- ONE_DAY constant of `main.go` (86 400 seconds). -/
def ONE_DAY : Nat := 24 * 60 * 60

/-- FIVE_DAYS constant of `main.go`. -/
def FIVE_DAYS : Nat := 5 * ONE_DAY

/-- TEN_DAYS constant of `main.go`. -/
def TEN_DAYS : Nat := 2 * FIVE_DAYS

/-- THIRTY_DAYS constant of `main.go`. -/
def THIRTY_DAYS : Nat := 3 * TEN_DAYS

/-- Go `uint32` subtraction `a - b` for `a b < 2^32` (4294967296): wraps
modulo `2^32`. -/
def u32sub (a b : Nat) : Nat := (a + 4294967296 - b) % 4294967296

/-- AddToAgeBucket of `main.go`.  The Go code computes
`ipAge := int(approxAge - ipTimestamp)`: the subtraction happens in `uint32`
(wrapping), and the conversion to `int` (64-bit) is value-preserving, so
`ipAge` is the wrapped difference as a nonnegative integer.  The Go function
mutates through a pointer; here it returns the updated buckets. -/
def AddToAgeBucket (ageBucket : AgeBuckets) (ipTimestamp approxAge : Nat) : AgeBuckets :=
  let ipAge := u32sub approxAge ipTimestamp
  if ipAge ≤ ONE_DAY then
    { ageBucket with lessThanOne := ageBucket.lessThanOne + 1 }
  else if ipAge < FIVE_DAYS then
    { ageBucket with oneToFive := ageBucket.oneToFive + 1 }
  else if ipAge < TEN_DAYS then
    { ageBucket with fiveToTen := ageBucket.fiveToTen + 1 }
  else if ipAge < THIRTY_DAYS then
    { ageBucket with tenToThirty := ageBucket.tenToThirty + 1 }
  else
    { ageBucket with greaterThanThirty := ageBucket.greaterThanThirty + 1 }

/-- Port clipping of `ComputeStats` (`main.go` lines 62-64, 70-72): Go's
`ip[:len(ip)-5]` drops exactly the last five bytes of the address string
(addresses are ASCII, so bytes = characters).  Note this is a fixed-width
rule, not "remove the port suffix". -/
def clipPort (ip : String) : String := String.mk (ip.data.take (ip.data.length - 5))

/-- Per-table seen set of `ComputeStats`: the clipped address of every
record, in order.  Go inserts these as keys of a hash map; only membership
is ever queried, so a list with membership is an exact model. -/
def bareAddrs (table : List CAddrInfo) : List String :=
  table.map (fun r => clipPort r.address.peerAddressStr)

/-- Reachability counting loop of `ComputeStats`: every corpus line whose
text is a key of the seen map is appended to the reachable list; the
reachable count is the length of that list (duplicate lines count each
time they appear). -/
def reachableCount (bitnodeLines : List String) (seen : List String) : Nat :=
  (bitnodeLines.filter (fun ip => decide (ip ∈ seen))).length

/-- Age-bucket accumulation loop of `ComputeStats` for one table. -/
def bucketsOf (table : List CAddrInfo) (approxAge : Nat) : AgeBuckets :=
  table.foldl (fun b r => AddToAgeBucket b r.address.time approxAge) ⟨0, 0, 0, 0, 0⟩

/-- OldestIP fold step of `main.go`: keep the smaller timestamp. -/
def minTimeStep (oldest : Nat) (r : CAddrInfo) : Nat :=
  if oldest > r.address.time then r.address.time else oldest

/-- OldestIP of `main.go`: fold the table down from the sentinel
2000000000 ("suffiently large number"), keeping the minimum timestamp. -/
def OldestIP (table : List CAddrInfo) : Nat :=
  table.foldl minTimeStep 2000000000

/-- Division producing Go's `float64` percentage in `ComputeStats`:
`float64(a) / float64(b)` with `a ≤ b` integer counts.  When `b = 0` the Go
expression is `0.0 / 0.0`, the IEEE NaN — modelled as `none`; the code has
no special case for it.  Otherwise the quotient is the exact rational. -/
def divOrNaN (a b : Nat) : Option ℚ :=
  if b = 0 then none else some ((a : ℚ) / (b : ℚ))

/-- ComputeStats of `main.go`.  The bitnode corpus file is passed as its
list of lines. -/
def ComputeStats (bitnodeLines : List String) (approxAge : Nat)
    (newTableIPs triedTableIPs : List CAddrInfo) : Result × Result :=
  let newSeen := bareAddrs newTableIPs
  let triedSeen := bareAddrs triedTableIPs
  let newReach := reachableCount bitnodeLines newSeen
  let triedReach := reachableCount bitnodeLines triedSeen
  ({ numberOfReachableIPs := newReach
     totalIPs := newTableIPs.length
     percentage := divOrNaN newReach newTableIPs.length
     oldestIPAge := OldestIP newTableIPs
     age := bucketsOf newTableIPs approxAge },
   { numberOfReachableIPs := triedReach
     totalIPs := triedTableIPs.length
     percentage := divOrNaN triedReach triedTableIPs.length
     oldestIPAge := OldestIP triedTableIPs
     age := bucketsOf triedTableIPs approxAge })

/-- BinSearch of `main.go`.  `none` models a Go runtime panic: the code
indexes `tsArray[mid]` and, in the terminal window, `tsArray[high]` without
a bounds check, and `high` starts at `len(tsArray)`.  The comparisons
`elem-tsArray[low]` and `tsArray[high]-elem` are `uint32` subtractions and
wrap.  The first argument is recursion fuel; every run reachable from
`ClosestBitnodeTS` strictly shrinks `high - low`, so the fuel supplied
there is never exhausted before the function returns. -/
def BinSearch : Nat → Nat → Nat → Nat → List Nat → Option Nat
  | 0, _, _, _, _ => none
  | fuel + 1, low, high, elem, tsArray =>
    let mid := (high + low) / 2
    match tsArray.get? mid with
    | none => none
    | some tmid =>
      if tmid = elem then some elem
      else if mid = low then
        match tsArray.get? high with
        | none => none
        | some thigh =>
          if u32sub elem tmid < u32sub thigh elem then some tmid else some thigh
      else if elem < tmid then BinSearch fuel low mid elem tsArray
      else BinSearch fuel mid high elem tsArray

/-- ClosestBitnodeTS of `main.go`, after the timestamp file has been read
into `tsArray`: `BinSearch(0, len(tsArray), approxAge, tsArray)`. -/
def ClosestBitnodeTS (tsArray : List Nat) (approxAge : Nat) : Option Nat :=
  BinSearch (tsArray.length + 1) 0 tsArray.length approxAge tsArray

/-- ApproxAge fold step of `main.go`: keep the larger timestamp. -/
def maxTimeStep (approxAge : Nat) (r : CAddrInfo) : Nat :=
  if approxAge < r.address.time then r.address.time else approxAge

/-- ApproxAge of `main.go`: starting from 0, fold both tables keeping the
maximum last-seen timestamp. -/
def ApproxAge (peersDb : PeersDB) : Nat :=
  peersDb.triedAddrInfo.foldl maxTimeStep (peersDb.newAddrInfo.foldl maxTimeStep 0)

/-- Control flow of `main` in `main.go`.  `NewPeersDB`'s two return values
are passed in: the decoded database (the zero value when decoding failed)
and the optional error.  The code only prints the error and continues
unconditionally into every statistics stage.  The corpus file contents are
supplied as a function of the chosen bitnode timestamp.  `none` models the
run dying in a `BinSearch` index panic; otherwise the result is the
reference timestamp and both tables' statistics. -/
def mainModel (rawPeersDB : PeersDB) (decodeErr : Option String)
    (tsArray : List Nat) (corpus : Nat → List String) : Option (Nat × Result × Result) :=
  let _ := decodeErr
  let peersDb := rawPeersDB
  let approxAge := ApproxAge peersDb
  match ClosestBitnodeTS tsArray approxAge with
  | none => none
  | some bitnodeTS =>
      some (approxAge, ComputeStats (corpus bitnodeTS) approxAge
        peersDb.newAddrInfo peersDb.triedAddrInfo)

/-- C1: the claim says a decode failure aborts the run before any statistics
stage.  The code does not: `main` only prints the error returned by
`NewPeersDB` and continues with the zero-valued database through age
estimation, snapshot lookup, reachability matching, bucketing and output.
Here a failed decode (zero database, error present) still produces a full
statistics record. -/
theorem decode_error_does_not_abort :
    mainModel zeroPeersDB (some "decode error") [100, 200] (fun _ => []) =
      some (0, ⟨0, 0, none, 2000000000, ⟨0, 0, 0, 0, 0⟩⟩,
               ⟨0, 0, none, 2000000000, ⟨0, 0, 0, 0, 0⟩⟩) := by
  decide

/-- C2: the claim says the locator returns a member with no other member
strictly closer, breaking ties toward the lower timestamp.  Both parts fail
on the code: on `[100, 200]` with target `50` it returns `200` although
`100` is strictly closer (the `uint32` subtraction `elem - tsArray[low]`
wraps), and on the tie `[100, 200, 300]` with target `250` it returns the
higher candidate `300`, not `200`. -/
theorem closest_ts_not_closest_and_ties_high :
    ClosestBitnodeTS [100, 200] 50 = some 200 ∧
      Nat.dist 100 50 < Nat.dist 200 50 ∧
      ClosestBitnodeTS [100, 200, 300] 250 = some 300 ∧
      Nat.dist 200 250 = Nat.dist 300 250 := by
  decide

/-- C3: the claim says the locator is defined on length-1 sequences and
fails with a structured error on the empty sequence.  The code instead
indexes out of range in both cases (`tsArray[0]` on the empty sequence,
`tsArray[1]` on a singleton whose element differs from the target);
`none` models that runtime panic, not a structured error. -/
theorem binsearch_faults_on_empty_and_singleton :
    ClosestBitnodeTS [] 7 = none ∧ ClosestBitnodeTS [5] 3 = none := by
  decide

/-- C4: the claim says normalization strips the record's entire port suffix
whatever its digit count.  The code clips a fixed five bytes
(`ip[:len(ip)-5]`): a two-digit port turns `1.2.3.4:80` into `1.2.3`, not
the bare address `1.2.3.4`; only five-byte suffixes such as `:8333` are
stripped correctly. -/
theorem clip_port_fixed_width_mangles_short_port :
    bareAddrs [⟨⟨"1.2.3.4:80", 100⟩⟩] = ["1.2.3"] ∧
      ("1.2.3" : String) ≠ "1.2.3.4" ∧
      bareAddrs [⟨⟨"1.2.3.4:8333", 100⟩⟩] = ["1.2.3.4"] := by
  decide

/-- C5 counterexample: the claim says a record newer than the reference
(negative signed age) lands in the minimum bucket.  On the code, a record
with timestamp 200 and reference 100 wraps to `2^32 - 100` and is counted
in the maximum bucket `greaterThanThirty`, not in `lessThanOne`. -/
theorem age_wrap_counts_newer_record_in_max_bucket :
    AddToAgeBucket ⟨0, 0, 0, 0, 0⟩ 200 100 = ⟨0, 0, 0, 0, 1⟩ ∧
      (⟨0, 0, 0, 0, 1⟩ : AgeBuckets) ≠ ⟨1, 0, 0, 0, 0⟩ := by
  decide

/-- C6: the claim says a zero-record table's percentage is reported as a
distinguished not-applicable value instead of a division-by-zero artifact.
The code unconditionally computes `float64(0)/float64(0)`, the IEEE NaN
(modelled by `none` in `divOrNaN`), and lets it flow into the output. -/
theorem empty_table_percentage_is_nan_artifact :
    (ComputeStats ["1.2.3.4"] 0 [] []).1.totalIPs = 0 ∧
      (ComputeStats ["1.2.3.4"] 0 [] []).1.percentage = none := by
  decide

/-- C8 counterexample: with a corpus containing duplicate lines the claim's
bound fails: a single-record table matched by the same corpus line twice
yields reachable count 2 > total 1, and the fraction 2 lies outside
`[0, 1]` although the total is positive. -/
theorem duplicate_corpus_lines_inflate_reachable :
    (ComputeStats ["1.2.3.4", "1.2.3.4"] 0 [⟨⟨"1.2.3.4:8333", 0⟩⟩] []).1.numberOfReachableIPs = 2 ∧
      (ComputeStats ["1.2.3.4", "1.2.3.4"] 0 [⟨⟨"1.2.3.4:8333", 0⟩⟩] []).1.totalIPs = 1 ∧
      ¬ ((ComputeStats ["1.2.3.4", "1.2.3.4"] 0 [⟨⟨"1.2.3.4:8333", 0⟩⟩] []).1.numberOfReachableIPs ≤
          (ComputeStats ["1.2.3.4", "1.2.3.4"] 0 [⟨⟨"1.2.3.4:8333", 0⟩⟩] []).1.totalIPs) ∧
      ∃ q : ℚ, (ComputeStats ["1.2.3.4", "1.2.3.4"] 0 [⟨⟨"1.2.3.4:8333", 0⟩⟩] []).1.percentage = some q ∧
        1 < q := by
  refine ⟨by decide, by decide, by decide, 2, ?_, by norm_num⟩
  have hr : reachableCount ["1.2.3.4", "1.2.3.4"] (bareAddrs [⟨⟨"1.2.3.4:8333", 0⟩⟩]) = 2 := by
    decide
  have hp : (ComputeStats ["1.2.3.4", "1.2.3.4"] 0 [⟨⟨"1.2.3.4:8333", 0⟩⟩] []).1.percentage =
      divOrNaN (reachableCount ["1.2.3.4", "1.2.3.4"] (bareAddrs [⟨⟨"1.2.3.4:8333", 0⟩⟩])) 1 := rfl
  rw [hp, hr]
  norm_num [divOrNaN]

/-- C9 counterexample: the claim says the caller treats an empty database
as a distinct fatal precondition rather than silently producing age 0.
The code silently returns 0 from `ApproxAge` on the empty database and
`main` proceeds through every statistics stage, producing a full result. -/
theorem empty_db_age_zero_and_run_proceeds :
    ApproxAge ⟨[], []⟩ = 0 ∧
      mainModel ⟨[], []⟩ none [50, 60] (fun _ => []) =
        some (0, ⟨0, 0, none, 2000000000, ⟨0, 0, 0, 0, 0⟩⟩,
                 ⟨0, 0, none, 2000000000, ⟨0, 0, 0, 0, 0⟩⟩) := by
  decide

/-- C5 amended: the age is the `uint32`-wrapped difference, so a record
whose timestamp exceeds the reference by at most `2^32 - THIRTY_DAYS` is
counted in the maximum bucket, not the minimum one. -/
theorem age_wrap_goes_to_max_bucket (b : AgeBuckets) (ts ref : Nat)
    (h1 : ts < 4294967296) (h2 : ref < ts)
    (h3 : ts - ref ≤ 4294967296 - THIRTY_DAYS) :
    AddToAgeBucket b ts ref = { b with greaterThanThirty := b.greaterThanThirty + 1 } := by
  simp only [THIRTY_DAYS, TEN_DAYS, FIVE_DAYS, ONE_DAY] at h3
  simp only [AddToAgeBucket, u32sub, THIRTY_DAYS, TEN_DAYS, FIVE_DAYS, ONE_DAY]
  split_ifs <;> first | rfl | (exfalso; omega)

/-- C5 witness: a record stamped 200 against reference 100 goes to the
maximum bucket. -/
theorem age_wrap_goes_to_max_bucket_witness :
    AddToAgeBucket ⟨1, 2, 3, 4, 5⟩ 200 100 = ⟨1, 2, 3, 4, 6⟩ :=
  age_wrap_goes_to_max_bucket ⟨1, 2, 3, 4, 5⟩ 200 100 (by norm_num) (by norm_num)
    (by norm_num [THIRTY_DAYS, TEN_DAYS, FIVE_DAYS, ONE_DAY])

/-- Sum of the five age-bucket counters. -/
def bucketSum (b : AgeBuckets) : Nat :=
  b.lessThanOne + b.oneToFive + b.fiveToTen + b.tenToThirty + b.greaterThanThirty

/-- Every call of `AddToAgeBucket` increments exactly one counter: the sum
grows by exactly one. -/
theorem bucketSum_AddToAgeBucket (b : AgeBuckets) (ts ref : Nat) :
    bucketSum (AddToAgeBucket b ts ref) = bucketSum b + 1 := by
  simp only [AddToAgeBucket, u32sub]
  split_ifs <;> simp [bucketSum] <;> omega

/-- Folding a table through `AddToAgeBucket` adds the table's length to the
bucket sum. -/
theorem bucketSum_foldl (table : List CAddrInfo) (ref : Nat) (b : AgeBuckets) :
    bucketSum (table.foldl (fun b r => AddToAgeBucket b r.address.time ref) b) =
      bucketSum b + table.length := by
  induction table generalizing b with
  | nil => simp
  | cons r rest ih =>
    simp only [List.foldl_cons, List.length_cons, ih, bucketSum_AddToAgeBucket]
    omega

/-- C7: every record of each table increments exactly one of the five
age-bucket counters, so each table's five counters sum to its record
count. -/
theorem bucket_sum_eq_record_count (bitnodeLines : List String) (approxAge : Nat)
    (newTableIPs triedTableIPs : List CAddrInfo) :
    bucketSum (ComputeStats bitnodeLines approxAge newTableIPs triedTableIPs).1.age =
        newTableIPs.length ∧
      bucketSum (ComputeStats bitnodeLines approxAge newTableIPs triedTableIPs).2.age =
        triedTableIPs.length := by
  constructor
  · have h := bucketSum_foldl newTableIPs approxAge ⟨0, 0, 0, 0, 0⟩
    simpa [bucketsOf, bucketSum] using h
  · have h := bucketSum_foldl triedTableIPs approxAge ⟨0, 0, 0, 0, 0⟩
    simpa [bucketsOf, bucketSum] using h

/-- Over a duplicate-free corpus the number of matching lines is bounded by
the size of the seen set. -/
theorem reachableCount_le_of_nodup (lines seen : List String) (h : lines.Nodup) :
    reachableCount lines seen ≤ seen.length := by
  unfold reachableCount
  have h1 : (lines.filter (fun ip => decide (ip ∈ seen))).Nodup := h.filter _
  have h2 : ∀ x ∈ lines.filter (fun ip => decide (ip ∈ seen)), x ∈ seen := by
    intro x hx
    exact of_decide_eq_true (List.mem_filter.mp hx).2
  calc (lines.filter (fun ip => decide (ip ∈ seen))).length
      = (lines.filter (fun ip => decide (ip ∈ seen))).toFinset.card :=
        (List.toFinset_card_of_nodup h1).symm
    _ ≤ seen.toFinset.card :=
        Finset.card_le_card (fun x hx => List.mem_toFinset.mpr (h2 x (List.mem_toFinset.mp hx)))
    _ ≤ seen.length := seen.toFinset_card_le

/-- C8 amended: for corpora without duplicate lines, each table's reachable
count is at most its record count, and whenever the record count is
positive the percentage is a rational in `[0, 1]` (with duplicate lines the
bound fails, see the counterexample). -/
theorem reachable_bounds_of_nodup_corpus (bitnodeLines : List String) (approxAge : Nat)
    (newTableIPs triedTableIPs : List CAddrInfo) (h : bitnodeLines.Nodup) :
    ((ComputeStats bitnodeLines approxAge newTableIPs triedTableIPs).1.numberOfReachableIPs ≤
        (ComputeStats bitnodeLines approxAge newTableIPs triedTableIPs).1.totalIPs) ∧
      ((ComputeStats bitnodeLines approxAge newTableIPs triedTableIPs).2.numberOfReachableIPs ≤
        (ComputeStats bitnodeLines approxAge newTableIPs triedTableIPs).2.totalIPs) ∧
      (0 < (ComputeStats bitnodeLines approxAge newTableIPs triedTableIPs).1.totalIPs →
        ∃ q : ℚ, (ComputeStats bitnodeLines approxAge newTableIPs triedTableIPs).1.percentage =
          some q ∧ 0 ≤ q ∧ q ≤ 1) ∧
      (0 < (ComputeStats bitnodeLines approxAge newTableIPs triedTableIPs).2.totalIPs →
        ∃ q : ℚ, (ComputeStats bitnodeLines approxAge newTableIPs triedTableIPs).2.percentage =
          some q ∧ 0 ≤ q ∧ q ≤ 1) := by
  have hn : reachableCount bitnodeLines (bareAddrs newTableIPs) ≤ newTableIPs.length := by
    calc reachableCount bitnodeLines (bareAddrs newTableIPs) ≤ (bareAddrs newTableIPs).length :=
          reachableCount_le_of_nodup _ _ h
      _ = newTableIPs.length := by simp [bareAddrs]
  have ht : reachableCount bitnodeLines (bareAddrs triedTableIPs) ≤ triedTableIPs.length := by
    calc reachableCount bitnodeLines (bareAddrs triedTableIPs) ≤ (bareAddrs triedTableIPs).length :=
          reachableCount_le_of_nodup _ _ h
      _ = triedTableIPs.length := by simp [bareAddrs]
  refine ⟨hn, ht, ?_, ?_⟩
  · intro hpos
    have hpos' : 0 < newTableIPs.length := hpos
    have hp : (ComputeStats bitnodeLines approxAge newTableIPs triedTableIPs).1.percentage =
        divOrNaN (reachableCount bitnodeLines (bareAddrs newTableIPs)) newTableIPs.length := rfl
    rw [hp, divOrNaN, if_neg (Nat.pos_iff_ne_zero.mp hpos')]
    refine ⟨_, rfl, by positivity, ?_⟩
    rw [div_le_one (by exact_mod_cast hpos')]
    exact_mod_cast hn
  · intro hpos
    have hpos' : 0 < triedTableIPs.length := hpos
    have hp : (ComputeStats bitnodeLines approxAge newTableIPs triedTableIPs).2.percentage =
        divOrNaN (reachableCount bitnodeLines (bareAddrs triedTableIPs)) triedTableIPs.length := rfl
    rw [hp, divOrNaN, if_neg (Nat.pos_iff_ne_zero.mp hpos')]
    refine ⟨_, rfl, by positivity, ?_⟩
    rw [div_le_one (by exact_mod_cast hpos')]
    exact_mod_cast ht

/-- C8 witness: on a duplicate-free one-line corpus and a one-record table
the bounds hold concretely. -/
theorem reachable_bounds_of_nodup_corpus_witness :
    (ComputeStats ["1.2.3.4"] 0 [⟨⟨"1.2.3.4:8333", 0⟩⟩] []).1.numberOfReachableIPs ≤
        (ComputeStats ["1.2.3.4"] 0 [⟨⟨"1.2.3.4:8333", 0⟩⟩] []).1.totalIPs ∧
      ∃ q : ℚ, (ComputeStats ["1.2.3.4"] 0 [⟨⟨"1.2.3.4:8333", 0⟩⟩] []).1.percentage = some q ∧
        0 ≤ q ∧ q ≤ 1 :=
  ⟨(reachable_bounds_of_nodup_corpus ["1.2.3.4"] 0 [⟨⟨"1.2.3.4:8333", 0⟩⟩] [] (by decide)).1,
   (reachable_bounds_of_nodup_corpus ["1.2.3.4"] 0 [⟨⟨"1.2.3.4:8333", 0⟩⟩] []
      (by decide)).2.2.1 (by decide)⟩

/-- Folding with `maxTimeStep` never goes below its starting value. -/
theorem foldl_maxTimeStep_init_le (l : List CAddrInfo) (a : Nat) :
    a ≤ l.foldl maxTimeStep a := by
  induction l generalizing a with
  | nil => simp
  | cons r rest ih =>
    simp only [List.foldl_cons]
    refine le_trans ?_ (ih (maxTimeStep a r))
    unfold maxTimeStep
    split <;> omega

/-- Folding with `maxTimeStep` dominates every timestamp in the list. -/
theorem foldl_maxTimeStep_mem_le (l : List CAddrInfo) (a : Nat) :
    ∀ r ∈ l, r.address.time ≤ l.foldl maxTimeStep a := by
  induction l generalizing a with
  | nil => simp
  | cons s rest ih =>
    intro r hr
    simp only [List.foldl_cons]
    rcases List.mem_cons.mp hr with h | h
    · subst h
      refine le_trans ?_ (foldl_maxTimeStep_init_le rest (maxTimeStep a r))
      unfold maxTimeStep
      split <;> omega
    · exact ih (maxTimeStep a s) r h

/-- The `maxTimeStep` fold returns its starting value or a timestamp from
the list. -/
theorem foldl_maxTimeStep_attained (l : List CAddrInfo) (a : Nat) :
    l.foldl maxTimeStep a = a ∨ ∃ r ∈ l, l.foldl maxTimeStep a = r.address.time := by
  induction l generalizing a with
  | nil => exact Or.inl rfl
  | cons s rest ih =>
    simp only [List.foldl_cons]
    rcases ih (maxTimeStep a s) with h | ⟨r, hr, he⟩
    · by_cases hc : a < s.address.time
      · refine Or.inr ⟨s, List.mem_cons_self _ _, ?_⟩
        rw [h]
        unfold maxTimeStep
        rw [if_pos hc]
      · refine Or.inl ?_
        rw [h]
        unfold maxTimeStep
        rw [if_neg hc]
    · exact Or.inr ⟨r, List.mem_cons_of_mem _ hr, he⟩

/-- C9 amended: `ApproxAge` dominates every record's timestamp and, on a
non-empty database, equals some record's timestamp (so it is the maximum
across both tables); on an empty database it silently returns 0 (`main`
performs no emptiness check, see the counterexample). -/
theorem approx_age_is_max_timestamp (db : PeersDB) :
    (∀ r ∈ db.newAddrInfo ++ db.triedAddrInfo, r.address.time ≤ ApproxAge db) ∧
      (db.newAddrInfo ++ db.triedAddrInfo ≠ [] →
        ∃ r ∈ db.newAddrInfo ++ db.triedAddrInfo, ApproxAge db = r.address.time) ∧
      (db.newAddrInfo = [] → db.triedAddrInfo = [] → ApproxAge db = 0) := by
  have he : ApproxAge db = (db.newAddrInfo ++ db.triedAddrInfo).foldl maxTimeStep 0 := by
    simp [ApproxAge, List.foldl_append]
  refine ⟨?_, ?_, ?_⟩
  · intro r hr
    rw [he]
    exact foldl_maxTimeStep_mem_le _ 0 r hr
  · intro hne
    rcases foldl_maxTimeStep_attained (db.newAddrInfo ++ db.triedAddrInfo) 0 with h | ⟨r, hr, hv⟩
    · obtain ⟨r, hr⟩ := List.exists_mem_of_ne_nil _ hne
      refine ⟨r, hr, ?_⟩
      have h1 := foldl_maxTimeStep_mem_le (db.newAddrInfo ++ db.triedAddrInfo) 0 r hr
      rw [he]
      omega
    · exact ⟨r, hr, by rw [he]; exact hv⟩
  · intro h1 h2
    rw [he, h1, h2]
    rfl

/-- C9 witness: on a one-record database the record's timestamp is bounded
by the approximate age. -/
theorem approx_age_is_max_timestamp_witness :
    (⟨⟨"1.2.3.4:8333", 7⟩⟩ : CAddrInfo).address.time ≤
      ApproxAge ⟨[⟨⟨"1.2.3.4:8333", 7⟩⟩], []⟩ :=
  (approx_age_is_max_timestamp ⟨[⟨⟨"1.2.3.4:8333", 7⟩⟩], []⟩).1 _ (by decide)

/-- Folding with `minTimeStep` never exceeds its starting value. -/
theorem foldl_minTimeStep_le_init (l : List CAddrInfo) (a : Nat) :
    l.foldl minTimeStep a ≤ a := by
  induction l generalizing a with
  | nil => simp
  | cons r rest ih =>
    simp only [List.foldl_cons]
    refine le_trans (ih (minTimeStep a r)) ?_
    unfold minTimeStep
    split <;> omega

/-- Folding with `minTimeStep` is below every timestamp in the list. -/
theorem foldl_minTimeStep_le_mem (l : List CAddrInfo) (a : Nat) :
    ∀ r ∈ l, l.foldl minTimeStep a ≤ r.address.time := by
  induction l generalizing a with
  | nil => simp
  | cons s rest ih =>
    intro r hr
    simp only [List.foldl_cons]
    rcases List.mem_cons.mp hr with h | h
    · subst h
      refine le_trans (foldl_minTimeStep_le_init rest (minTimeStep a r)) ?_
      unfold minTimeStep
      split <;> omega
    · exact ih (minTimeStep a s) r h

/-- The `minTimeStep` fold returns its starting value or a timestamp from
the list. -/
theorem foldl_minTimeStep_attained (l : List CAddrInfo) (a : Nat) :
    l.foldl minTimeStep a = a ∨ ∃ r ∈ l, l.foldl minTimeStep a = r.address.time := by
  induction l generalizing a with
  | nil => exact Or.inl rfl
  | cons s rest ih =>
    simp only [List.foldl_cons]
    rcases ih (minTimeStep a s) with h | ⟨r, hr, he⟩
    · by_cases hc : a > s.address.time
      · refine Or.inr ⟨s, List.mem_cons_self _ _, ?_⟩
        rw [h]
        unfold minTimeStep
        rw [if_pos hc]
      · refine Or.inl ?_
        rw [h]
        unfold minTimeStep
        rw [if_neg hc]
    · exact Or.inr ⟨r, List.mem_cons_of_mem _ hr, he⟩

/-- C10: `OldestIP` is exactly `min 2000000000 (minimum timestamp)`: on the
empty table it is the sentinel 2000000000, it never exceeds the sentinel
(so a timestamp above 2000000000 cannot raise it), it is below every
record's timestamp, and it is attained at the sentinel or at some
record. -/
theorem oldest_ip_min_with_sentinel (table : List CAddrInfo) :
    (table = [] → OldestIP table = 2000000000) ∧
      OldestIP table ≤ 2000000000 ∧
      (∀ r ∈ table, OldestIP table ≤ r.address.time) ∧
      (OldestIP table = 2000000000 ∨ ∃ r ∈ table, OldestIP table = r.address.time) := by
  refine ⟨?_, ?_, ?_, ?_⟩
  · intro h
    rw [h]
    rfl
  · exact foldl_minTimeStep_le_init table 2000000000
  · exact foldl_minTimeStep_le_mem table 2000000000
  · exact foldl_minTimeStep_attained table 2000000000

/-- C10 witness: the empty table yields the sentinel. -/
theorem oldest_ip_min_with_sentinel_witness : OldestIP [] = 2000000000 :=
  (oldest_ip_min_with_sentinel []).1 rfl

end BitPeers
